import Mathlib

/-!
Verification development for the GPS photo renamer
(`gps_photo_renamer_smart_counter.py`).

The program is shallowly embedded: filenames are `List Char`, the regexes of
the filename codec are translated into executable matching functions that keep
Python's leftmost / greedy / backtracking semantics, the per-file processing
loop of `process_directory` becomes a pure step function over an explicit run
state with an oracle record for the I/O collaborators (EXIF reading,
geocoding, the filesystem rename), and uncaught exceptions are `Except.error`.

Modelling conventions:
* `\d` of the Python regexes is embedded as the ASCII digits `0`..`9`;
* `[A-Z]{2}` under `re.IGNORECASE` also accepts the two non-ASCII characters
  Python's case folding adds (U+017F and U+212A);
* `.` (the regex wildcard) matches every character except the newline;
* floating point coordinates never enter the logic being verified: the
  pipeline treats them opaquely and the geocoder model receives their
  formatted renderings (`f"{lat:.4f}"` etc.) as explicit arguments.
-/

namespace GPSRenamer

/-- Shorthand turning a string literal into the character-list representation
used throughout the development. -/
def cl (s : String) : List Char := s.toList

/-- ASCII decimal digit test; embedding of `\d` for the inputs the program
manipulates. -/
def isDig (c : Char) : Bool := 48 ≤ c.toNat && c.toNat ≤ 57

/-- Numeric value of a digit character, as Python's `int` sees it. -/
def charVal (c : Char) : Nat := c.toNat - 48

/-- Decimal value of a digit string, embedding of Python's `int(s)`. -/
def asNat (l : List Char) : Nat := l.foldl (fun a c => 10 * a + charVal c) 0

/-- Single decimal digit rendered as a character. -/
def dig : Nat → Char
  | 0 => '0'
  | 1 => '1'
  | 2 => '2'
  | 3 => '3'
  | 4 => '4'
  | 5 => '5'
  | 6 => '6'
  | 7 => '7'
  | 8 => '8'
  | _ => '9'

/-- Embedding of the format expression `f"{n:04d}"`: left pad with zeros to
four digits; larger numbers are rendered in full. -/
def pad4 (n : Nat) : List Char :=
  if n < 10000 then
    [dig (n / 1000), dig (n / 100 % 10), dig (n / 10 % 10), dig (n % 10)]
  else
    Nat.toDigits 10 n

/-- Length of the leading run of digits of a name. -/
def leadDigits : List Char → Nat
  | [] => 0
  | c :: cs => if isDig c then leadDigits cs + 1 else 0

/-- Match of `_\d{4}` at the head of a list: an underscore followed by at
least four digits. -/
def matchUnd4 : List Char → Bool
  | u :: a :: b :: c :: d :: _ =>
    u == '_' && isDig a && isDig b && isDig c && isDig d
  | _ => false

/-- One backtracking alternative of `^\d{12,14}_\d{4}`: exactly `k` leading
digits, an underscore, then four digits. -/
def matchKHead (k : Nat) (s : List Char) : Bool :=
  (s.take k).length == k && (s.take k).all isDig && matchUnd4 (s.drop k)

/-- Embedding of `is_already_processed`: `re.match(r'^\d{12,14}_\d{4}', name)`
with the three backtracking alternatives of the counted repetition. -/
def is_already_processed (s : List Char) : Bool :=
  matchKHead 14 s || matchKHead 13 s || matchKHead 12 s

/-- Capture of `^\d{12,14}_(\d{4})` for one alternative `k`: the four digits
after the underscore, read as a number (`int(match.group(1))`). -/
def capAt (k : Nat) (s : List Char) : Option Nat :=
  if matchKHead k s then some (asNat ((s.drop (k + 1)).take 4)) else none

/-- Sequence capture of `^\d{12,14}_(\d{4})`, greedy alternative first. -/
def seqCapture (s : List Char) : Option Nat :=
  ((capAt 14 s).orElse fun _ => capAt 13 s).orElse fun _ => capAt 12 s

/-- Embedding of `_get_start_counter`: fold the maximum captured sequence
number over every file of the directory, then add one. -/
def get_start_counter (files : List (List Char)) : Nat :=
  (files.foldl (fun m f => match seqCapture f with
    | some c => max m c
    | none => m) 0) + 1

/-- Embedding of `re.match(r'^(\d{12,14})', name)`: the greedy capture is the
leading digit run clipped at fourteen, provided at least twelve digits lead. -/
def tsParse (s : List Char) : Option (List Char) :=
  if 12 ≤ leadDigits s then some (s.take (min (leadDigits s) 14)) else none

/-- Python's `str.endswith`, stated through `reverse` so that proofs can peel
the suffix off head-first. -/
def endsWithB (s p : List Char) : Bool := s.reverse.take p.length == p.reverse

/-- Python's `str.startswith`. -/
def startsWithB (s p : List Char) : Bool := s.take p.length == p

/-- Splitting at the last dot anywhere in a name: `dotSplit s = some (a, b)`
exactly when `s = a ++ '.' :: b` and `b` is dot free. -/
def dotSplit : List Char → Option (List Char × List Char)
  | [] => none
  | c :: cs =>
    match dotSplit cs with
    | some (a, b) => some (c :: a, b)
    | none => if c == '.' then some ([], cs) else none

/-- Embedding of `pathlib.PurePath.stem`: the name without its suffix, where a
suffix requires the last dot to be neither the first nor the last character. -/
def pstem (s : List Char) : List Char :=
  match dotSplit s with
  | some (a, b) => if a.isEmpty || b.isEmpty then s else a
  | none => s

/-- Embedding of `pathlib.PurePath.suffix` (including its dot). -/
def psuffix (s : List Char) : List Char :=
  match dotSplit s with
  | some (a, b) => if a.isEmpty || b.isEmpty then [] else '.' :: b
  | none => []

/-- The literal `_MAP` tag. -/
def mapSuffix : List Char := ['_', 'M', 'A', 'P']

/-- Embedding of `has_map_tag`: `Path(filename).stem.endswith('_MAP')`. -/
def has_map_tag (s : List Char) : Bool := endsWithB (pstem s) mapSuffix

end GPSRenamer

namespace GPSRenamer

/-- Character class `[A-Z]` under `re.IGNORECASE`: the ASCII letters plus the
two characters Python's case folding adds to this class. -/
def alphaIC (c : Char) : Bool :=
  (65 ≤ c.toNat && c.toNat ≤ 90) || (97 ≤ c.toNat && c.toNat ≤ 122) ||
    c.toNat == 0x17F || c.toNat == 0x212A

/-- Head match of `\.` : the next character is a literal dot. -/
def startsWithDot : List Char → Bool
  | c :: _ => c == '.'
  | _ => false

/-- Head match of `_MAP\.` under `re.IGNORECASE`. -/
def startsWithMapDot : List Char → Bool
  | u :: m :: a :: p :: rest =>
    u == '_' && (m == 'M' || m == 'm') && (a == 'A' || a == 'a') &&
      (p == 'P' || p == 'p') && startsWithDot rest
  | _ => false

/-- Match of `(?:_MAP)?\.` with the optional group tried both ways. -/
def afterCC (l : List Char) : Bool := startsWithMapDot l || startsWithDot l

/-- Match of `_([A-Z]{2})(?:_MAP)?\.` at the head of a list, returning the
country-code capture. -/
def ccAfter : List Char → Option (List Char)
  | u :: c1 :: c2 :: rest =>
    if u == '_' && alphaIC c1 && alphaIC c2 && afterCC rest then some [c1, c2]
    else none
  | _ => none

/-- The `.+` group: nonempty and free of newlines (the wildcard does not match
a newline). -/
def cityOk (cs : List Char) : Bool := !cs.isEmpty && cs.all fun c => c.toNat != 10

/-- One split of `(.+)_([A-Z]{2})(?:_MAP)?\.`: the city group takes the first
`j` characters. -/
def tryCity (l : List Char) (j : Nat) : Option (List Char × List Char) :=
  match ccAfter (l.drop j) with
  | none => none
  | some cc =>
    if cityOk (l.take j) && (l.take j).length == j then some (l.take j, cc)
    else none

/-- Greedy backtracking over the split point: the longest city group wins. -/
def greedyFrom (l : List Char) : Nat → Option (List Char × List Char)
  | 0 => none
  | j + 1 =>
    match tryCity l (j + 1) with
    | some r => some r
    | none => greedyFrom l j

/-- Match of `(.+)_([A-Z]{2})(?:_MAP)?\.` against a whole tail. -/
def matchLocAt (l : List Char) : Option (List Char × List Char) :=
  greedyFrom l l.length

/-- Head match of `_\d{4}_`, returning the remainder on success. -/
def headLoc : List Char → Option (List Char)
  | u :: a :: b :: c :: d :: v :: rest =>
    if u == '_' && isDig a && isDig b && isDig c && isDig d && v == '_' then
      some rest
    else none
  | _ => none

/-- Embedding of
`re.search(r'_\d{4}_(.+)_([A-Z]{2})(?:_MAP)?\.', name, re.IGNORECASE)`:
start positions are tried left to right, and at the first position whose
head pattern fits, the greedy tail match decides the captures. -/
def locSearch : List Char → Option (List Char × List Char)
  | [] => none
  | c :: rest =>
    match (match headLoc (c :: rest) with
           | some tail => matchLocAt tail
           | none => none) with
    | some r => some r
    | none => locSearch rest

/-- Embedding of the filename construction of `process_directory`
(lines 984-994): `base = f"{datetime_str}{separator}{counter:04d}"`, then the
optional location segment, map tag and the original extension. -/
def buildName (sep : Char) (T : List Char) (S : Nat)
    (L : Option (List Char × List Char)) (M : Bool) (ext : List Char) :
    List Char :=
  let base := T ++ sep :: pad4 S
  match L with
  | some (city, cc) =>
    base ++ sep :: city ++ sep :: cc ++ (if M then mapSuffix else []) ++ ext
  | none => base ++ ext

end GPSRenamer

namespace GPSRenamer

/-- Resolved location record, as the geocoding helpers build it. -/
structure Loc where
  city : List Char
  city_display : List Char
  country_code : List Char
deriving DecidableEq, Repr

/-- The in-memory geocode cache: association list with newest entry first,
mirroring dictionary assignment plus lookup. -/
def CacheT := List (List Char × Loc)

/-- Dictionary lookup `cache_key in self.geocode_cache`. -/
def cacheGet (c : List (List Char × Loc)) (k : List Char) : Option Loc :=
  match c.find? fun e => e.fst == k with
  | some e => some e.snd
  | none => none

/-- Embedding of `geocode_location` (lines 130-170).  The network collaborators
appear as their returned values: `nom`, `liq`, `bdc` are the results of the
three providers for the given coordinates, `hasKey` tells whether a LocationIQ
API key is configured, and `lat4`, `lon4`, `lat5`, `lon5` are the formatted
renderings `f"{lat:.4f}"`, `f"{lon:.4f}"`, `f"{lat:.5f}"`, `f"{lon:.5f}"`.
Returns the resolved location together with the updated cache. -/
def geocode_location (useGeo : Bool) (hasKey : Bool)
    (nom liq bdc : Option Loc) (lat4 lon4 lat5 lon5 : List Char)
    (cache : List (List Char × Loc)) :
    Option Loc × List (List Char × Loc) :=
  if !useGeo then (none, cache)
  else
    let key := lat4 ++ ',' :: lon4
    match cacheGet cache key with
    | some v => (some v, cache)
    | none =>
      match nom with
      | some r => (some r, (key, r) :: cache)
      | none =>
        match (if hasKey then liq else none) with
        | some r => (some r, (key, r) :: cache)
        | none =>
          match bdc with
          | some r => (some r, (key, r) :: cache)
          | none => (some ⟨lat5, lat5, lon5⟩, cache)

end GPSRenamer

namespace GPSRenamer

/-- The photo extension set of the class (`PHOTO_EXTENSIONS`). -/
def PHOTO_EXTENSIONS : List (List Char) :=
  [cl ".jpg", cl ".jpeg", cl ".png", cl ".heic", cl ".heif"]

/-- Python's `str.upper` restricted to the ASCII extensions it is applied to. -/
def upperStr (l : List Char) : List Char := l.map Char.toUpper

/-- The per-file filter applied inside every glob loop of
`_collect_photo_files`: drop macOS resource forks and `.DS_Store`. -/
def keepFile (n : List Char) : Bool :=
  !startsWithB n (cl "._") && n ≠ cl ".DS_Store"

/-- Lexicographic comparison of names by code point, Python's ordering of the
path objects being sorted. -/
def lexLe : List Char → List Char → Bool
  | [], _ => true
  | _ :: _, [] => false
  | a :: as, b :: bs => if a < b then true else if b < a then false else lexLe as bs

/-- Insert into a strictly sorted duplicate-free list, keeping it so; the
building block for `sorted(set(...))`. -/
def insSorted (x : List Char) : List (List Char) → List (List Char)
  | [] => [x]
  | y :: ys =>
    if x = y then y :: ys
    else if lexLe x y then x :: y :: ys
    else y :: insSorted x ys

/-- Embedding of `sorted(set(l))`. -/
def sortedDedup (l : List (List Char)) : List (List Char) :=
  l.foldr insSorted []

/-- Embedding of `_collect_photo_files` over the flat listing `names` of a
directory: for every extension, the matches of `*ext` and of `*EXT` are
appended (minus the macOS artifacts), and the result is `sorted(set(...))`. -/
def collect_photo_files (names : List (List Char)) : List (List Char) :=
  sortedDedup (PHOTO_EXTENSIONS.foldr (fun e acc =>
    (names.filter fun n => endsWithB n e && keepFile n) ++
    (names.filter fun n => endsWithB n (upperStr e) && keepFile n) ++ acc) [])

end GPSRenamer

namespace GPSRenamer

/-- The run-mode flags of `process_directory` that steer the per-file control
flow (drawing parameters are irrelevant to it and omitted). -/
structure Flags where
  dryRun : Bool
  addWatermark : Bool
  addMap : Bool
  reprocessMap : Bool
  skipProcessed : Bool
  separator : Char
deriving DecidableEq, Repr

/-- Per-file oracle record: the values the I/O collaborators return for this
file.  `exif` is the truthiness of `get_exif_data`, `exifDt` the result of
`get_datetime_from_exif` (file-date fallback included), `gps` the result of
`get_gps_data`, `geoRes` the value `geocode_location` returns for the file's
coordinates (`none` standing for disabled geocoding), `fwdGeo` whether
`forward_geocode` recovers coordinates, and `renameOk` / `watermarkOk` whether
`Path.rename` succeeds / `add_watermark_to_image` returns `True`. -/
structure FileCtx where
  name : List Char
  exif : Bool
  exifDt : Option (List Char)
  gps : Bool
  geoRes : Option Loc
  fwdGeo : Bool
  renameOk : Bool
  watermarkOk : Bool
deriving DecidableEq, Repr

/-- The mutable counters of one `process_directory` run. -/
structure RunState where
  counter : Nat
  renamedCount : Nat
  skippedCount : Nat
  mapAddedCount : Nat
deriving DecidableEq, Repr

/-- Filesystem-visible mutations the pipeline can issue. -/
inductive FsEffect where
  | rename (old new : List Char)
  | watermark (target : List Char)
  | cleanup
deriving DecidableEq, Repr

/-- The mutually exclusive outcomes of one loop iteration. -/
inductive Action where
  | backfillNoGps
  | backfillDry
  | backfillDone
  | backfillWmFailed
  | skippedProcessed
  | noDate
  | renamedDry
  | renamed
  | renameFailed
deriving DecidableEq, Repr

/-- Embedding of one iteration of the loop of `process_directory`
(lines 881-1025).  The `Except.error` case is the uncaught exception of the
unprotected `photo_path.rename` of the map-backfill branch (line 948); its
payload is the list of effects already performed when the exception fires.
A successful iteration returns the action taken, the updated counters and the
filesystem effects issued. -/
def step (fl : Flags) (ctx : FileCtx) (st : RunState) :
    Except (List FsEffect) (Action × RunState × List FsEffect) :=
  let isProc := is_already_processed ctx.name
  let hasMap := has_map_tag ctx.name
  if isProc && fl.reprocessMap && fl.addMap && !hasMap then
    let loc := locSearch ctx.name
    let gps0 := ctx.exif && ctx.gps
    let gpsAvail := gps0 || (!gps0 && loc.isSome && ctx.fwdGeo)
    if !gpsAvail then
      .ok (.backfillNoGps, { st with skippedCount := st.skippedCount + 1 }, [])
    else if fl.dryRun then
      .ok (.backfillDry, { st with mapAddedCount := st.mapAddedCount + 1 }, [])
    else if ctx.watermarkOk then
      if ctx.renameOk then
        .ok (.backfillDone, { st with mapAddedCount := st.mapAddedCount + 1 },
          [.watermark ctx.name,
           .rename ctx.name (pstem ctx.name ++ mapSuffix ++ psuffix ctx.name)])
      else
        .error [.watermark ctx.name]
    else
      .ok (.backfillWmFailed, { st with skippedCount := st.skippedCount + 1 }, [])
  else if fl.skipProcessed && isProc then
    .ok (.skippedProcessed, { st with skippedCount := st.skippedCount + 1 }, [])
  else
    match ctx.exifDt with
    | none => .ok (.noDate, st, [])
    | some dtStr =>
      let gpsEff := ctx.exif && ctx.gps
      let location := if gpsEff then ctx.geoRes else none
      let locPair := location.map fun l => (l.city, l.country_code)
      let newName :=
        buildName fl.separator dtStr st.counter locPair (fl.addMap && gpsEff)
          (psuffix ctx.name)
      if fl.dryRun then
        .ok (.renamedDry,
          { st with renamedCount := st.renamedCount + 1, counter := st.counter + 1 }, [])
      else if ctx.renameOk then
        .ok (.renamed,
          { st with renamedCount := st.renamedCount + 1, counter := st.counter + 1 },
          .rename ctx.name newName ::
            (if fl.addWatermark && ctx.watermarkOk then [.watermark newName] else []))
      else
        .ok (.renameFailed, st, [])

/-- The loop of `process_directory` over the collected photo files, threading
the run state and accumulating effects; an uncaught exception aborts the loop
with the state and effects reached so far. -/
def runFiles (fl : Flags) : List FileCtx → RunState →
    Except (RunState × List FsEffect) (RunState × List FsEffect)
  | [], st => .ok (st, [])
  | ctx :: rest, st =>
    match step fl ctx st with
    | .error effs => .error (st, effs)
    | .ok (_, st', effs) =>
      match runFiles fl rest st' with
      | .ok (stF, effsF) => .ok (stF, effs ++ effsF)
      | .error (stF, effsF) => .error (stF, effs ++ effsF)

/-- Embedding of `process_directory`: initialize the smart counter from every
file of the directory listing `allNames`, run the loop over the collected
photos, and clean up the macOS artifacts unless dry running (the cleanup is
also skipped when no photos were found, and an uncaught exception skips it
too). -/
def process_directory (fl : Flags) (allNames : List (List Char))
    (photos : List FileCtx) :
    Except (RunState × List FsEffect) (RunState × List FsEffect) :=
  let st0 : RunState := ⟨get_start_counter allNames, 0, 0, 0⟩
  if photos.isEmpty then .ok (st0, [])
  else
    match runFiles fl photos st0 with
    | .ok (st, effs) =>
      .ok (st, effs ++ (if fl.dryRun then [] else [.cleanup]))
    | .error e => .error e

end GPSRenamer

namespace GPSRenamer

/-- Modelled from the claim wording of C3: the configured separator followed
by exactly four digits. -/
def sepThen4 (sep : Char) : List Char → Bool
  | u :: a :: b :: c :: d :: _ =>
    u == sep && isDig a && isDig b && isDig c && isDig d
  | _ => false

/-- Modelled from the claim wording of C3: the name starts with twelve to
fourteen digits followed by the configured separator and exactly four digits. -/
def claimProcessed (sep : Char) (s : List Char) : Bool :=
  [12, 13, 14].any fun k =>
    (s.take k).length == k && (s.take k).all isDig && sepThen4 sep (s.drop k)

/-- Modelled from the claim wording of C9: the name bears one of the photo
extensions matched case-insensitively, in any mix of upper and lower case. -/
def claimPhotoCI (n : List Char) : Bool :=
  PHOTO_EXTENSIONS.any fun e => endsWithB (n.map Char.toLower) e

end GPSRenamer

namespace GPSRenamer

example : is_already_processed (cl "20240101120000_0001.jpg") = true := by decide
example : is_already_processed (cl "IMG_0001.jpg") = false := by decide
example : is_already_processed (cl "vacation.jpg") = false := by decide
example : seqCapture (cl "20240101120000_0037_Graz_AT.jpg") = some 37 := by decide
example : seqCapture (cl "20240101_0003_Graz_AT.jpg") = none := by decide
example : get_start_counter [cl "20240101120000_0003_Graz_AT.jpg", cl "20240101120000_0007.jpg"] = 8 := by
  decide
example : get_start_counter [cl "20240101_0003_Graz_AT.jpg", cl "20240101_0007.jpg"] = 1 := by
  decide
example : tsParse (cl "20240101120000_0001.jpg") = some (cl "20240101120000") := by decide
example : has_map_tag (cl "20240101120000_0001_Graz_AT_MAP.jpg") = true := by decide
example : has_map_tag (cl "20240101120000_0001_Graz_AT.jpg") = false := by decide
example : locSearch (cl "20240101120000_0001_Graz_AT_MAP.jpg") =
    some (cl "Graz", cl "AT") := by decide
example : locSearch (cl "20240101120000_0001_San-Francisco_US.jpg") =
    some (cl "San-Francisco", cl "US") := by decide
example : locSearch (cl "20240101120000_0001_Foo_BA_AT.jpg") =
    some (cl "Foo_BA", cl "AT") := by decide
example : locSearch (cl "20240101120000_0001.jpg") = none := by decide
example : buildName '_' (cl "20240305100000") 1 (some (cl "Graz", cl "AT")) false (cl ".jpg") =
    cl "20240305100000_0001_Graz_AT.jpg" := by decide
example : buildName '-' (cl "202401011200") 1 none false (cl ".jpg") =
    cl "202401011200-0001.jpg" := by decide



/-! Digit and character facts. -/

lemma beq_underscore_false_of_isDig {c : Char} (h : isDig c = true) :
    (c == '_') = false := by
  cases hb : c == '_' with
  | false => rfl
  | true =>
    rw [beq_iff_eq] at hb
    subst hb
    exact absurd h (by decide)

lemma isDig_dig (d : Nat) : isDig (dig d) = true := by
  unfold dig
  split <;> decide

lemma charVal_dig {d : Nat} (h : d ≤ 9) : charVal (dig d) = d := by
  interval_cases d <;> decide

lemma pad4_eq {S : Nat} (h : S ≤ 9999) :
    pad4 S = [dig (S / 1000), dig (S / 100 % 10), dig (S / 10 % 10), dig (S % 10)] := by
  unfold pad4
  rw [if_pos (by omega)]

lemma asNat_pad4 {S : Nat} (h : S ≤ 9999) : asNat (pad4 S) = S := by
  rw [pad4_eq h]
  show 10 * (10 * (10 * (10 * 0 + charVal (dig (S / 1000))) + charVal (dig (S / 100 % 10))) +
      charVal (dig (S / 10 % 10))) + charVal (dig (S % 10)) = S
  rw [charVal_dig (by omega), charVal_dig (by omega), charVal_dig (by omega),
    charVal_dig (by omega)]
  omega

lemma pad4_all_isDig {S : Nat} (h : S ≤ 9999) : (pad4 S).all isDig = true := by
  rw [pad4_eq h]
  simp [isDig_dig]

lemma pad4_length {S : Nat} (h : S ≤ 9999) : (pad4 S).length = 4 := by
  rw [pad4_eq h]
  rfl

/-! Facts about the `^\d{12,14}_\d{4}` alternatives on a name of the shape
`T ++ '_' :: rest` with `T` all digits. -/

lemma matchUnd4_cons_ne {c : Char} {l : List Char} (h : (c == '_') = false) :
    matchUnd4 (c :: l) = false := by
  rcases l with _ | ⟨a, _ | ⟨b, _ | ⟨d, _ | ⟨e, r⟩⟩⟩⟩ <;> simp [matchUnd4, h]

lemma matchKHead_self {T rest : List Char} (hT : T.all isDig = true)
    (hr : matchUnd4 rest = true) : matchKHead T.length (T ++ rest) = true := by
  unfold matchKHead
  rw [List.take_left, List.drop_left, hT, hr]
  simp

lemma matchKHead_lt_false {T rest : List Char} (hT : T.all isDig = true)
    {k : Nat} (hk : k < T.length) : matchKHead k (T ++ rest) = false := by
  unfold matchKHead
  have h1 : (T ++ rest).drop k = T[k] :: (T.drop (k + 1) ++ rest) := by
    rw [List.drop_append_of_le_length (Nat.le_of_lt hk),
      List.drop_eq_getElem_cons hk]
    rfl
  have h2 : isDig T[k] = true :=
    List.all_eq_true.mp hT _ (List.getElem_mem hk)
  rw [h1, matchUnd4_cons_ne (beq_underscore_false_of_isDig h2)]
  simp

lemma matchKHead_gt_false {T rest : List Char} {k : Nat} (hk : T.length < k) :
    matchKHead k (T ++ '_' :: rest) = false := by
  unfold matchKHead
  obtain ⟨m, hm⟩ : ∃ m, k - T.length = m + 1 := ⟨k - T.length - 1, by omega⟩
  have hud : isDig '_' = false := by decide
  rw [List.take_append_eq_append_take, hm, List.take_succ_cons]
  simp [List.all_append, hud]

/-! Parsing a name of the shape `T ++ '_' :: a :: b :: c :: d :: tail`,
with `T` a digit run of length twelve to fourteen and `a b c d` digits:
exactly the names `buildName` produces with the underscore separator. -/

section BuiltName

variable {T tail : List Char} {a b c d : Char}

lemma matchUnd4_digits (ha : isDig a = true) (hb : isDig b = true)
    (hc : isDig c = true) (hd : isDig d = true) :
    matchUnd4 ('_' :: a :: b :: c :: d :: tail) = true := by
  simp [matchUnd4, ha, hb, hc, hd]

lemma capAt_built_ne {k : Nat} (hT : T.all isDig = true) (hne : k ≠ T.length) :
    capAt k (T ++ '_' :: tail) = none := by
  unfold capAt
  rcases Nat.lt_or_ge k T.length with h | h
  · rw [matchKHead_lt_false hT h]
    rfl
  · have h2 : T.length < k := by omega
    rw [matchKHead_gt_false h2]
    rfl

lemma drop_succ_len_append (T X : List Char) :
    (T ++ '_' :: X).drop (T.length + 1) = X := by
  rw [List.append_cons]
  exact List.drop_left' (by simp)

lemma capAt_built_self (hT : T.all isDig = true) (ha : isDig a = true)
    (hb : isDig b = true) (hc : isDig c = true) (hd : isDig d = true) :
    capAt T.length (T ++ '_' :: a :: b :: c :: d :: tail) =
      some (asNat [a, b, c, d]) := by
  unfold capAt
  rw [matchKHead_self hT (matchUnd4_digits ha hb hc hd), if_pos rfl]
  rw [drop_succ_len_append]
  rfl

lemma seqCapture_built (hT : T.all isDig = true) (h12 : 12 ≤ T.length)
    (h14 : T.length ≤ 14) (ha : isDig a = true) (hb : isDig b = true)
    (hc : isDig c = true) (hd : isDig d = true) :
    seqCapture (T ++ '_' :: a :: b :: c :: d :: tail) = some (asNat [a, b, c, d]) := by
  have hself := @capAt_built_self T tail a b c d hT ha hb hc hd
  have hT3 : T.length = 12 ∨ T.length = 13 ∨ T.length = 14 := by omega
  unfold seqCapture
  rcases hT3 with h | h | h <;> rw [h] at hself <;>
    simp [hself, capAt_built_ne hT, h, Option.orElse]

lemma is_already_processed_built (hT : T.all isDig = true) (h12 : 12 ≤ T.length)
    (h14 : T.length ≤ 14) (ha : isDig a = true) (hb : isDig b = true)
    (hc : isDig c = true) (hd : isDig d = true) :
    is_already_processed (T ++ '_' :: a :: b :: c :: d :: tail) = true := by
  have hself : matchKHead T.length (T ++ '_' :: a :: b :: c :: d :: tail) = true :=
    matchKHead_self hT (matchUnd4_digits ha hb hc hd)
  have hT3 : T.length = 12 ∨ T.length = 13 ∨ T.length = 14 := by omega
  unfold is_already_processed
  rcases hT3 with h | h | h <;> rw [h] at hself <;> simp [hself]

lemma leadDigits_append (hT : T.all isDig = true) {c : Char}
    (hc : isDig c = false) (rest : List Char) :
    leadDigits (T ++ c :: rest) = T.length := by
  induction T with
  | nil => simp [leadDigits, hc]
  | cons x xs ih =>
    simp only [List.all_cons, Bool.and_eq_true] at hT
    simp [leadDigits, hT.1, ih hT.2]

lemma tsParse_built (hT : T.all isDig = true) (h12 : 12 ≤ T.length)
    (h14 : T.length ≤ 14) (rest : List Char) :
    tsParse (T ++ '_' :: rest) = some T := by
  unfold tsParse
  rw [leadDigits_append hT (by decide), if_pos h12, Nat.min_eq_left h14,
    List.take_left]

end BuiltName

/-! Characterization of the smart-counter fold. -/

section CounterFold

/-- The folding function of `_get_start_counter`. -/
def maxStep (m : Nat) (f : List Char) : Nat :=
  match seqCapture f with
  | some c => max m c
  | none => m

lemma get_start_counter_eq (files : List (List Char)) :
    get_start_counter files = files.foldl maxStep 0 + 1 := rfl

lemma le_foldl_maxStep (files : List (List Char)) (m : Nat) :
    m ≤ files.foldl maxStep m := by
  induction files generalizing m with
  | nil => simp
  | cons f fs ih =>
    refine Nat.le_trans ?_ (ih (maxStep m f))
    unfold maxStep
    cases seqCapture f <;> simp [Nat.le_max_left]

lemma foldl_maxStep_ge (files : List (List Char)) (m : Nat) {f : List Char}
    {n : Nat} (hf : f ∈ files) (hn : seqCapture f = some n) :
    n ≤ files.foldl maxStep m := by
  induction files generalizing m with
  | nil => cases hf
  | cons g gs ih =>
    rcases List.mem_cons.mp hf with h | h
    · subst h
      refine Nat.le_trans ?_ (le_foldl_maxStep gs (maxStep m f))
      unfold maxStep
      rw [hn]
      exact Nat.le_max_right m n
    · exact ih (maxStep m g) h

lemma foldl_maxStep_attained (files : List (List Char)) (m : Nat) :
    files.foldl maxStep m = m ∨
      ∃ f ∈ files, seqCapture f = some (files.foldl maxStep m) := by
  induction files generalizing m with
  | nil => exact Or.inl rfl
  | cons g gs ih =>
    have hstep : List.foldl maxStep m (g :: gs) = gs.foldl maxStep (maxStep m g) := rfl
    rcases ih (maxStep m g) with h | ⟨f, hf, hc⟩
    · rw [hstep, h]
      unfold maxStep
      cases hsc : seqCapture g with
      | none => exact Or.inl rfl
      | some c =>
        rcases Nat.le_total c m with hcm | hmc
        · left
          simp [Nat.max_eq_left hcm]
        · refine Or.inr ⟨g, List.mem_cons_self g gs, ?_⟩
          rw [hsc]
          simp [Nat.max_eq_right hmc]
    · exact Or.inr ⟨f, List.mem_cons_of_mem g hf, by rw [hstep, hc]⟩

end CounterFold

/-! Character inequations used by the location-regex analysis. -/

lemma beq_underscore_false_of_toNat {c : Char} (h : c.toNat ≠ 95) :
    (c == '_') = false := by
  cases hb : c == '_' with
  | false => rfl
  | true =>
    rw [beq_iff_eq] at hb
    subst hb
    exact absurd (by decide) h

lemma alphaIC_of_upper {c : Char} (h1 : 65 ≤ c.toNat) (h2 : c.toNat ≤ 90) :
    alphaIC c = true := by
  simp [alphaIC]
  omega

/-! The head pattern `_\d{4}_` and the leftmost search. -/

lemma headLoc_cons_ne {c : Char} {l : List Char} (h : (c == '_') = false) :
    headLoc (c :: l) = none := by
  rcases l with _ | ⟨a, _ | ⟨b, _ | ⟨d, _ | ⟨e, _ | ⟨v, r⟩⟩⟩⟩⟩ <;> simp [headLoc, h]

lemma locSearch_cons_of_none {c : Char} {l : List Char}
    (h : headLoc (c :: l) = none) : locSearch (c :: l) = locSearch l := by
  simp [locSearch, h]

lemma locSearch_cons_of_some {c : Char} {l tail : List Char}
    {r : List Char × List Char} (h1 : headLoc (c :: l) = some tail)
    (h2 : matchLocAt tail = some r) : locSearch (c :: l) = some r := by
  simp [locSearch, h1, h2]

lemma locSearch_digits_skip {T : List Char} (hT : T.all isDig = true)
    (l : List Char) : locSearch (T ++ l) = locSearch l := by
  induction T with
  | nil => rfl
  | cons x xs ih =>
    simp only [List.all_cons, Bool.and_eq_true] at hT
    have hx : (x == '_') = false := beq_underscore_false_of_isDig hT.1
    rw [List.cons_append, locSearch_cons_of_none (headLoc_cons_ne hx)]
    exact ih hT.2

lemma locSearch_none_of_no_underscore {l : List Char} (h : '_' ∉ l) :
    locSearch l = none := by
  induction l with
  | nil => rfl
  | cons c cs ih =>
    have hc : (c == '_') = false := by
      cases hb : c == '_' with
      | false => rfl
      | true =>
        rw [beq_iff_eq] at hb
        subst hb
        exact absurd (List.mem_cons_self _ _) h
    rw [locSearch_cons_of_none (headLoc_cons_ne hc)]
    exact ih fun hm => h (List.mem_cons_of_mem c hm)

/-! The greedy tail match `(.+)_([A-Z]{2})(?:_MAP)?\.` on a built tail. -/

lemma ccAfter_cons_ne {u : Char} {l : List Char} (h : (u == '_') = false) :
    ccAfter (u :: l) = none := by
  rcases l with _ | ⟨a, _ | ⟨b, r⟩⟩ <;> simp [ccAfter, h]

lemma ccAfter_drop_no_underscore {l : List Char} (h : '_' ∉ l) (k : Nat) :
    ccAfter (l.drop k) = none := by
  cases hd : l.drop k with
  | nil => rfl
  | cons c r =>
    have hm : c ∈ l := List.drop_subset k l (hd ▸ List.mem_cons_self c r)
    have hc : (c == '_') = false := by
      cases hb : c == '_' with
      | false => rfl
      | true =>
        rw [beq_iff_eq] at hb
        subst hb
        exact absurd hm h
    exact ccAfter_cons_ne hc

lemma tryCity_of_ccAfter_none {l : List Char} {j : Nat}
    (h : ccAfter (l.drop j) = none) : tryCity l j = none := by
  simp [tryCity, h]

lemma tryCity_zero (l : List Char) : tryCity l 0 = none := by
  unfold tryCity
  cases hc : ccAfter (l.drop 0) with
  | none => rfl
  | some cc => simp [cityOk]

/-- The map-tag-and-extension region never admits a country-code match:
every drop of `(if M then mapSuffix else []) ++ '.' :: ext` fails
`_([A-Z]{2})(?:_MAP)?\.`. -/
lemma ccAfter_mapTail_none (M : Bool) {ext : List Char} (hext : '_' ∉ ext)
    (k : Nat) :
    ccAfter (((if M then mapSuffix else []) ++ '.' :: ext).drop k) = none := by
  cases M with
  | false =>
    show ccAfter (('.' :: ext).drop k) = none
    match k with
    | 0 => exact ccAfter_cons_ne (by decide)
    | k + 1 =>
      rw [List.drop_succ_cons]
      exact ccAfter_drop_no_underscore hext k
  | true =>
    show ccAfter (('_' :: 'M' :: 'A' :: 'P' :: '.' :: ext).drop k) = none
    match k with
    | 0 =>
      have hP : (('P' : Char) == '_') = false := by decide
      have hPd : (('P' : Char) == '.') = false := by decide
      have hafter : afterCC ('P' :: '.' :: ext) = false := by
        rcases ext with _ | ⟨x, _ | ⟨y, r⟩⟩ <;>
          simp [afterCC, startsWithMapDot, startsWithDot, hP, hPd]
      simp [ccAfter, hafter]
    | 1 => exact ccAfter_cons_ne (by decide)
    | 2 => exact ccAfter_cons_ne (by decide)
    | 3 => exact ccAfter_cons_ne (by decide)
    | 4 => exact ccAfter_cons_ne (by decide)
    | k + 5 =>
      show ccAfter (ext.drop k) = none
      exact ccAfter_drop_no_underscore hext k

section LocBuilt

variable {city ext : List Char} {c1 c2 : Char} {M : Bool}

lemma tryCity_at_city (hcity : city ≠ []) (hnl : ∀ c ∈ city, c.toNat ≠ 10)
    (h1a : 65 ≤ c1.toNat) (h1b : c1.toNat ≤ 90)
    (h2a : 65 ≤ c2.toNat) (h2b : c2.toNat ≤ 90) :
    tryCity (city ++ '_' :: c1 :: c2 :: ((if M then mapSuffix else []) ++ '.' :: ext))
      city.length = some (city, [c1, c2]) := by
  unfold tryCity
  rw [List.drop_left, List.take_left]
  have hafter : afterCC ((if M then mapSuffix else []) ++ '.' :: ext) = true := by
    cases M with
    | false =>
      show afterCC ('.' :: ext) = true
      simp [afterCC, startsWithDot]
    | true =>
      show afterCC ('_' :: 'M' :: 'A' :: 'P' :: '.' :: ext) = true
      simp [afterCC, startsWithMapDot, startsWithDot]
  have hcc : ccAfter ('_' :: c1 :: c2 :: ((if M then mapSuffix else []) ++ '.' :: ext)) =
      some [c1, c2] := by
    simp [ccAfter, hafter, alphaIC_of_upper h1a h1b, alphaIC_of_upper h2a h2b]
  rw [hcc]
  have hok : cityOk city = true := by
    rcases city with _ | ⟨c, cs⟩
    · exact absurd rfl hcity
    · simp only [cityOk, List.isEmpty_cons, Bool.not_false, Bool.true_and]
      refine List.all_eq_true.mpr fun x hx => ?_
      have := hnl x hx
      simp [this]
  simp [hok]

lemma tryCity_gt_none (hext : '_' ∉ ext) (h1b : c1.toNat ≤ 90)
    (h2b : c2.toNat ≤ 90) {m : Nat} (hm : 1 ≤ m) :
    tryCity (city ++ '_' :: c1 :: c2 :: ((if M then mapSuffix else []) ++ '.' :: ext))
      (city.length + m) = none := by
  apply tryCity_of_ccAfter_none
  have hdrop :
      (city ++ '_' :: c1 :: c2 :: ((if M then mapSuffix else []) ++ '.' :: ext)).drop
        (city.length + m) =
      ('_' :: c1 :: c2 :: ((if M then mapSuffix else []) ++ '.' :: ext)).drop m := by
    have h1 := List.drop_drop m city.length
      (city ++ '_' :: c1 :: c2 :: ((if M then mapSuffix else []) ++ '.' :: ext))
    rw [List.drop_left] at h1
    exact h1.symm
  rw [hdrop]
  match m, hm with
  | 1, _ =>
    exact ccAfter_cons_ne (beq_underscore_false_of_toNat (by omega))
  | 2, _ =>
    exact ccAfter_cons_ne (beq_underscore_false_of_toNat (by omega))
  | m + 3, _ =>
    show ccAfter (((if M then mapSuffix else []) ++ '.' :: ext).drop m) = none
    exact ccAfter_mapTail_none M hext m

lemma greedyFrom_spec {l : List Char} {j : Nat} {r : List Char × List Char}
    (hj : tryCity l j = some r) :
    ∀ n, j ≤ n → (∀ i, j < i → i ≤ n → tryCity l i = none) →
      greedyFrom l n = some r := by
  intro n
  induction n with
  | zero =>
    intro hn _
    have hj0 : j = 0 := Nat.le_zero.mp hn
    rw [hj0, tryCity_zero] at hj
    cases hj
  | succ n ih =>
    intro hn hup
    by_cases he : j = n + 1
    · subst he
      simp [greedyFrom, hj]
    · have hnone : tryCity l (n + 1) = none := hup (n + 1) (by omega) (Nat.le_refl _)
      simp only [greedyFrom, hnone]
      exact ih (by omega) fun i h1 h2 => hup i h1 (by omega)

lemma matchLocAt_built (hcity : city ≠ []) (hnl : ∀ c ∈ city, c.toNat ≠ 10)
    (hext : '_' ∉ ext) (h1a : 65 ≤ c1.toNat) (h1b : c1.toNat ≤ 90)
    (h2a : 65 ≤ c2.toNat) (h2b : c2.toNat ≤ 90) :
    matchLocAt (city ++ '_' :: c1 :: c2 :: ((if M then mapSuffix else []) ++ '.' :: ext)) =
      some (city, [c1, c2]) := by
  unfold matchLocAt
  apply greedyFrom_spec (tryCity_at_city hcity hnl h1a h1b h2a h2b)
  · simp
  · intro i h1 h2
    obtain ⟨m, hm1, hm2⟩ : ∃ m, 1 ≤ m ∧ i = city.length + m :=
      ⟨i - city.length, by omega, by omega⟩
    rw [hm2]
    exact tryCity_gt_none hext h1b h2b hm1

end LocBuilt

/-! Stem computation and the `_MAP` suffix test on built names. -/

lemma dotSplit_none_of_no_dot {l : List Char} (h : '.' ∉ l) :
    dotSplit l = none := by
  induction l with
  | nil => rfl
  | cons c cs ih =>
    have hcs : '.' ∉ cs := fun hm => h (List.mem_cons_of_mem c hm)
    have hc : (c == '.') = false := by
      cases hb : c == '.' with
      | false => rfl
      | true =>
        rw [beq_iff_eq] at hb
        subst hb
        exact absurd (List.mem_cons_self _ _) h
    simp [dotSplit, ih hcs, hc]

lemma dotSplit_append {pre b : List Char} (hb : '.' ∉ b) :
    dotSplit (pre ++ '.' :: b) = some (pre, b) := by
  induction pre with
  | nil => simp [dotSplit, dotSplit_none_of_no_dot hb]
  | cons c cs ih => simp [dotSplit, ih]

lemma pstem_append {pre b : List Char} (hpre : pre ≠ []) (hb : '.' ∉ b)
    (hbne : b ≠ []) : pstem (pre ++ '.' :: b) = pre := by
  unfold pstem
  rw [dotSplit_append hb]
  simp [List.isEmpty_iff, hpre, hbne]

lemma psuffix_append {pre b : List Char} (hpre : pre ≠ []) (hb : '.' ∉ b)
    (hbne : b ≠ []) : psuffix (pre ++ '.' :: b) = '.' :: b := by
  unfold psuffix
  rw [dotSplit_append hb]
  simp [List.isEmpty_iff, hpre, hbne]

lemma endsWithB_append (Z p : List Char) : endsWithB (Z ++ p) p = true := by
  unfold endsWithB
  rw [List.reverse_append, show p.length = p.reverse.length by simp, List.take_left]
  exact beq_self_eq_true _

lemma endsWithB_underscore_cc (W : List Char) (c1 c2 : Char) :
    endsWithB (W ++ ['_', c1, c2]) mapSuffix = false := by
  unfold endsWithB
  rw [List.reverse_append]
  show ((c2 :: c1 :: '_' :: W.reverse).take 4 == ['P', 'A', 'M', '_']) = false
  rw [beq_eq_false_iff_ne]
  intro h
  injection h with h1 h
  injection h with h2 h
  injection h with h3 h
  exact absurd h3 (by decide)

lemma endsWithB_digits_ne (W : List Char) {a b c d : Char}
    (hd : isDig d = true) : endsWithB (W ++ [a, b, c, d]) mapSuffix = false := by
  unfold endsWithB
  rw [List.reverse_append]
  show ((d :: c :: b :: a :: W.reverse).take 4 == ['P', 'A', 'M', '_']) = false
  rw [beq_eq_false_iff_ne]
  intro h
  injection h with h1 h
  rw [h1] at hd
  exact absurd hd (by decide)

/-! Head pattern of the location search on the segment following the
timestamp. -/

lemma headLoc_digits {q1 q2 q3 q4 : Char} (h1 : isDig q1 = true)
    (h2 : isDig q2 = true) (h3 : isDig q3 = true) (h4 : isDig q4 = true)
    (l : List Char) :
    headLoc ('_' :: q1 :: q2 :: q3 :: q4 :: '_' :: l) = some l := by
  simp [headLoc, h1, h2, h3, h4]

lemma headLoc_digits_dot {q1 q2 q3 q4 : Char} (ext : List Char) :
    headLoc ('_' :: q1 :: q2 :: q3 :: q4 :: '.' :: ext) = none := by
  have hd : (('.' : Char) == '_') = false := by decide
  simp [headLoc, hd]

end GPSRenamer

namespace GPSRenamer

lemma ne_nil_left {l₁ l₂ : List Char} (h : l₁ ≠ []) : l₁ ++ l₂ ≠ [] := by
  rcases l₁ with _ | ⟨c, cs⟩
  · exact absurd rfl h
  · simp

/-- C1 (amended): with the underscore separator — the one hardcoded in every
parsing regex — building a structured filename from a valid timestamp, a
sequence number, an optional sanitized location and a map flag (the map flag
being false when the location is absent, since `process_directory` emits no
map tag without a location) and parsing it back recovers the timestamp, the
sequence, the location (or its absence) and the map tag, and the built name
satisfies `is_already_processed`. -/
theorem c1_round_trip_underscore
    (T city extRest : List Char) (S : Nat) (c1 c2 : Char) (M : Bool)
    (hT : T.all isDig = true) (hT12 : 12 ≤ T.length) (hT14 : T.length ≤ 14)
    (hS : S ≤ 9999)
    (hcity : city ≠ []) (hcnl : ∀ c ∈ city, c.toNat ≠ 10)
    (h1a : 65 ≤ c1.toNat) (h1b : c1.toNat ≤ 90)
    (h2a : 65 ≤ c2.toNat) (h2b : c2.toNat ≤ 90)
    (hextU : '_' ∉ extRest) (hextD : '.' ∉ extRest) (hextNe : extRest ≠ []) :
    (tsParse (buildName '_' T S (some (city, [c1, c2])) M ('.' :: extRest)) = some T ∧
     seqCapture (buildName '_' T S (some (city, [c1, c2])) M ('.' :: extRest)) = some S ∧
     locSearch (buildName '_' T S (some (city, [c1, c2])) M ('.' :: extRest)) =
       some (city, [c1, c2]) ∧
     has_map_tag (buildName '_' T S (some (city, [c1, c2])) M ('.' :: extRest)) = M ∧
     is_already_processed (buildName '_' T S (some (city, [c1, c2])) M ('.' :: extRest)) = true) ∧
    (tsParse (buildName '_' T S none false ('.' :: extRest)) = some T ∧
     seqCapture (buildName '_' T S none false ('.' :: extRest)) = some S ∧
     locSearch (buildName '_' T S none false ('.' :: extRest)) = none ∧
     has_map_tag (buildName '_' T S none false ('.' :: extRest)) = false ∧
     is_already_processed (buildName '_' T S none false ('.' :: extRest)) = true) := by
  obtain ⟨q1, q2, q3, q4, hq, hd1, hd2, hd3, hd4, hval⟩ :
      ∃ a b c d, pad4 S = [a, b, c, d] ∧ isDig a = true ∧ isDig b = true ∧
        isDig c = true ∧ isDig d = true ∧ asNat [a, b, c, d] = S :=
    ⟨_, _, _, _, pad4_eq hS, isDig_dig _, isDig_dig _, isDig_dig _, isDig_dig _,
      by rw [← pad4_eq hS]; exact asNat_pad4 hS⟩
  have hTne : T ≠ [] := by
    intro h
    rw [h] at hT12
    simp at hT12
  refine ⟨⟨?_, ?_, ?_, ?_, ?_⟩, ?_, ?_, ?_, ?_, ?_⟩
  · have hnm : buildName '_' T S (some (city, [c1, c2])) M ('.' :: extRest) =
        T ++ '_' :: (pad4 S ++ '_' :: (city ++ '_' :: c1 :: c2 ::
          ((if M then mapSuffix else []) ++ '.' :: extRest))) := by
      simp [buildName]
    rw [hnm]
    exact tsParse_built hT hT12 hT14 _
  · have hnm : buildName '_' T S (some (city, [c1, c2])) M ('.' :: extRest) =
        T ++ '_' :: q1 :: q2 :: q3 :: q4 :: ('_' :: (city ++ '_' :: c1 :: c2 ::
          ((if M then mapSuffix else []) ++ '.' :: extRest))) := by
      simp [buildName, hq]
    rw [hnm, seqCapture_built hT hT12 hT14 hd1 hd2 hd3 hd4, hval]
  · have hnm : buildName '_' T S (some (city, [c1, c2])) M ('.' :: extRest) =
        T ++ ('_' :: (pad4 S ++ '_' :: (city ++ '_' :: c1 :: c2 ::
          ((if M then mapSuffix else []) ++ '.' :: extRest)))) := by
      simp [buildName]
    rw [hnm, locSearch_digits_skip hT, hq]
    exact locSearch_cons_of_some (headLoc_digits hd1 hd2 hd3 hd4 _)
      (matchLocAt_built hcity hcnl hextU h1a h1b h2a h2b)
  · cases M with
    | true =>
      have hnm : buildName '_' T S (some (city, [c1, c2])) true ('.' :: extRest) =
          T ++ '_' :: pad4 S ++ '_' :: city ++ ['_', c1, c2] ++ mapSuffix ++
            '.' :: extRest := by
        simp [buildName, mapSuffix]
      unfold has_map_tag
      rw [hnm, pstem_append (ne_nil_left (ne_nil_left (ne_nil_left (ne_nil_left hTne))))
        hextD hextNe]
      exact endsWithB_append _ _
    | false =>
      have hnm : buildName '_' T S (some (city, [c1, c2])) false ('.' :: extRest) =
          T ++ '_' :: pad4 S ++ '_' :: city ++ ['_', c1, c2] ++ '.' :: extRest := by
        simp [buildName]
      unfold has_map_tag
      rw [hnm, pstem_append (ne_nil_left (ne_nil_left (ne_nil_left hTne))) hextD hextNe]
      exact endsWithB_underscore_cc _ c1 c2
  · have hnm : buildName '_' T S (some (city, [c1, c2])) M ('.' :: extRest) =
        T ++ '_' :: q1 :: q2 :: q3 :: q4 :: ('_' :: (city ++ '_' :: c1 :: c2 ::
          ((if M then mapSuffix else []) ++ '.' :: extRest))) := by
      simp [buildName, hq]
    rw [hnm]
    exact is_already_processed_built hT hT12 hT14 hd1 hd2 hd3 hd4
  · have hnm : buildName '_' T S none false ('.' :: extRest) =
        T ++ '_' :: (pad4 S ++ '.' :: extRest) := by
      simp [buildName]
    rw [hnm]
    exact tsParse_built hT hT12 hT14 _
  · have hnm : buildName '_' T S none false ('.' :: extRest) =
        T ++ '_' :: q1 :: q2 :: q3 :: q4 :: ('.' :: extRest) := by
      simp [buildName, hq]
    rw [hnm, seqCapture_built hT hT12 hT14 hd1 hd2 hd3 hd4, hval]
  · have hnm : buildName '_' T S none false ('.' :: extRest) =
        T ++ ('_' :: (pad4 S ++ '.' :: extRest)) := by
      simp [buildName]
    have h1 : locSearch ('_' :: q1 :: q2 :: q3 :: q4 :: '.' :: extRest) =
        locSearch (q1 :: q2 :: q3 :: q4 :: '.' :: extRest) :=
      locSearch_cons_of_none (headLoc_digits_dot extRest)
    have h2 : locSearch (q1 :: q2 :: q3 :: q4 :: '.' :: extRest) =
        locSearch ('.' :: extRest) :=
      @locSearch_digits_skip [q1, q2, q3, q4]
        (by simp [hd1, hd2, hd3, hd4]) ('.' :: extRest)
    have h3 : locSearch ('.' :: extRest) = none := by
      refine locSearch_none_of_no_underscore fun hm => ?_
      rcases List.mem_cons.mp hm with h | h
      · exact absurd h (by decide)
      · exact hextU h
    rw [hnm, locSearch_digits_skip hT, hq]
    exact h1.trans (h2.trans h3)
  · have hnm : buildName '_' T S none false ('.' :: extRest) =
        T ++ ['_'] ++ [q1, q2, q3, q4] ++ '.' :: extRest := by
      simp [buildName, hq]
    unfold has_map_tag
    rw [hnm, pstem_append (ne_nil_left (ne_nil_left hTne)) hextD hextNe]
    exact endsWithB_digits_ne _ hd4
  · have hnm : buildName '_' T S none false ('.' :: extRest) =
        T ++ '_' :: q1 :: q2 :: q3 :: q4 :: ('.' :: extRest) := by
      simp [buildName, hq]
    rw [hnm]
    exact is_already_processed_built hT hT12 hT14 hd1 hd2 hd3 hd4

end GPSRenamer

namespace GPSRenamer

/-- C1 counterexample: the claim quantifies over every separator, but the
parsing regexes hardcode the underscore.  With separator '-' the built name
fails `is_already_processed` and the sequence capture finds nothing, so the
round trip breaks. -/
theorem c1_separator_counterexample :
    buildName '-' (cl "202401011200") 1 none false (cl ".jpg") =
      cl "202401011200-0001.jpg" ∧
    is_already_processed (cl "202401011200-0001.jpg") = false ∧
    seqCapture (cl "202401011200-0001.jpg") = none := by
  refine ⟨by decide, by decide, by decide⟩

/-- Closed instance of the C1 round trip at a concrete build. -/
theorem c1_round_trip_underscore_witness :
    locSearch (buildName '_' (cl "20240305100000") 1
        (some (cl "Graz", ['A', 'T'])) true ('.' :: cl "jpg")) =
      some (cl "Graz", ['A', 'T']) ∧
    has_map_tag (buildName '_' (cl "20240305100000") 1
        (some (cl "Graz", ['A', 'T'])) true ('.' :: cl "jpg")) = true ∧
    is_already_processed (buildName '_' (cl "20240305100000") 1
        (some (cl "Graz", ['A', 'T'])) true ('.' :: cl "jpg")) = true := by
  have h := c1_round_trip_underscore (cl "20240305100000") (cl "Graz") (cl "jpg")
    1 'A' 'T' true (by decide) (by decide) (by decide) (by decide) (by decide)
    (by decide) (by decide) (by decide) (by decide) (by decide) (by decide)
    (by decide) (by decide)
  exact ⟨h.1.2.2.1, h.1.2.2.2.1, h.1.2.2.2.2⟩

/-- C2 (amended): `_get_start_counter` returns one more than the maximum
sequence number captured over every file of the directory, or 1 when no file
matches; the spec's concrete example returns 8 only once its names carry
12-14 digit timestamps — with the literal 8-digit names it returns 1 (see
the counterexample). -/
theorem c2_start_counter (files : List (List Char)) :
    (∀ f ∈ files, ∀ n, seqCapture f = some n → n < get_start_counter files) ∧
    (get_start_counter files = 1 ∨
      ∃ f ∈ files, seqCapture f = some (get_start_counter files - 1)) ∧
    get_start_counter
      [cl "20240101120000_0003_Graz_AT.jpg", cl "20240101120000_0007.jpg"] = 8 := by
  refine ⟨?_, ?_, by decide⟩
  · intro f hf n hn
    have h := foldl_maxStep_ge files 0 hf hn
    rw [get_start_counter_eq]
    omega
  · rcases foldl_maxStep_attained files 0 with h | ⟨f, hf, hc⟩
    · left
      rw [get_start_counter_eq, h]
    · right
      refine ⟨f, hf, ?_⟩
      rw [get_start_counter_eq, Nat.add_sub_cancel]
      exact hc

/-- Closed instance of the C2 characterization at a concrete directory. -/
theorem c2_start_counter_witness :
    3 < get_start_counter [cl "20240101120000_0003_Graz_AT.jpg"] :=
  (c2_start_counter [cl "20240101120000_0003_Graz_AT.jpg"]).1
    (cl "20240101120000_0003_Graz_AT.jpg") (by decide) 3 (by decide)

/-- C2 counterexample: over the spec's literal directory — whose names have
only 8-digit date prefixes — the scan matches nothing and returns 1, not 8. -/
theorem c2_counterexample :
    get_start_counter [cl "20240101_0003_Graz_AT.jpg", cl "20240101_0007.jpg"] = 1 := by
  decide

lemma sepThen4_underscore (l : List Char) : sepThen4 '_' l = matchUnd4 l := by
  rcases l with _ | ⟨u, _ | ⟨a, _ | ⟨b, _ | ⟨c, _ | ⟨d, r⟩⟩⟩⟩⟩ <;> rfl

/-- C3 (amended): `is_already_processed` is the claim's prefix predicate for
the underscore separator — the one hardcoded in the regex, whatever separator
is configured — and the three concrete examples hold. -/
theorem c3_is_processed_iff :
    (∀ s : List Char, is_already_processed s = claimProcessed '_' s) ∧
    is_already_processed (cl "20240101120000_0001.jpg") = true ∧
    is_already_processed (cl "IMG_0001.jpg") = false ∧
    is_already_processed (cl "vacation.jpg") = false := by
  refine ⟨?_, by decide, by decide, by decide⟩
  intro s
  unfold is_already_processed claimProcessed
  simp only [List.any_cons, List.any_nil, Bool.or_false, sepThen4_underscore]
  show (matchKHead 14 s || matchKHead 13 s || matchKHead 12 s) =
    (matchKHead 12 s || (matchKHead 13 s || matchKHead 14 s))
  cases h14 : matchKHead 14 s <;> cases h13 : matchKHead 13 s <;>
    cases h12 : matchKHead 12 s <;> rfl

/-- C3 counterexample: with the separator configured to '-', the claim's
predicate accepts a dash-built name while the code's check, which hardcodes
the underscore, rejects it. -/
theorem c3_counterexample :
    claimProcessed '-' (cl "202401011200-0001.jpg") = true ∧
    is_already_processed (cl "202401011200-0001.jpg") = false := by
  refine ⟨by decide, by decide⟩

end GPSRenamer

namespace GPSRenamer

/-- C4 (amended): a file that is both processed and map-tagged is skipped —
no rename, no watermark, no counter advance — for every reprocess-map,
add-map and dry-run setting, provided skip-processed mode is enabled; with
skip-processed disabled the file instead falls through to a fresh rename
(see the counterexample). -/
theorem c4_skip_processed_map (fl : Flags) (ctx : FileCtx) (st : RunState)
    (hp : is_already_processed ctx.name = true)
    (hm : has_map_tag ctx.name = true)
    (hs : fl.skipProcessed = true) :
    step fl ctx st = .ok (.skippedProcessed,
      { st with skippedCount := st.skippedCount + 1 }, []) := by
  simp [step, hp, hm, hs]

/-- Closed instance of the C4 skip at a concrete file. -/
theorem c4_skip_processed_map_witness :
    step ⟨false, false, true, true, true, '_'⟩
      ⟨cl "20240101120000_0001_Graz_AT_MAP.jpg", true, some (cl "20240101120000"),
        false, none, false, true, true⟩ ⟨5, 0, 0, 0⟩ =
      .ok (.skippedProcessed, ⟨5, 0, 1, 0⟩, []) :=
  c4_skip_processed_map ⟨false, false, true, true, true, '_'⟩
    ⟨cl "20240101120000_0001_Graz_AT_MAP.jpg", true, some (cl "20240101120000"),
      false, none, false, true, true⟩ ⟨5, 0, 0, 0⟩ (by decide) (by decide) rfl

/-- C4 counterexample: with skip-processed disabled (`--no-skip`), a
processed and map-tagged file is renamed afresh — the filesystem is mutated
and a sequence number is consumed — contradicting the claim's skip for every
flag combination. -/
theorem c4_counterexample :
    is_already_processed (cl "20240101120000_0001_Graz_AT_MAP.jpg") = true ∧
    has_map_tag (cl "20240101120000_0001_Graz_AT_MAP.jpg") = true ∧
    step ⟨false, false, true, true, false, '_'⟩
      ⟨cl "20240101120000_0001_Graz_AT_MAP.jpg", true, some (cl "20240101120000"),
        false, none, false, true, true⟩ ⟨5, 0, 0, 0⟩ =
      .ok (.renamed, ⟨6, 1, 0, 0⟩,
        [.rename (cl "20240101120000_0001_Graz_AT_MAP.jpg")
          (cl "20240101120000_0005.jpg")]) := by
  exact ⟨by decide, by decide, by rfl⟩

/-- C5 (amended): in the fresh-rename branch a filesystem rename failure is
caught per file: the file stays untouched, no counter advances, and the loop
continues with the next file.  In the map-backfill branch the rename is
unprotected, so its failure aborts the whole run (see the counterexample). -/
theorem c5_fresh_rename_failure (fl : Flags) (ctx : FileCtx) (st : RunState)
    (rest : List FileCtx) (dt : List Char)
    (hp : is_already_processed ctx.name = false)
    (hdt : ctx.exifDt = some dt)
    (hdry : fl.dryRun = false)
    (hrn : ctx.renameOk = false) :
    step fl ctx st = .ok (.renameFailed, st, []) ∧
    runFiles fl (ctx :: rest) st = runFiles fl rest st := by
  have h1 : step fl ctx st = .ok (.renameFailed, st, []) := by
    simp [step, hp, hdt, hdry, hrn]
  refine ⟨h1, ?_⟩
  simp only [runFiles, h1]
  cases hr : runFiles fl rest st with
  | ok r => cases r with | mk stF effsF => simp
  | error e => cases e with | mk stF effsF => simp

/-- Closed instance of the caught fresh-rename failure. -/
theorem c5_fresh_rename_failure_witness :
    step ⟨false, false, false, false, true, '_'⟩
      ⟨cl "IMG_0001.jpg", true, some (cl "20240305100000"), false, none, false,
        false, true⟩ ⟨1, 0, 0, 0⟩ = .ok (.renameFailed, ⟨1, 0, 0, 0⟩, []) :=
  (c5_fresh_rename_failure ⟨false, false, false, false, true, '_'⟩
    ⟨cl "IMG_0001.jpg", true, some (cl "20240305100000"), false, none, false,
      false, true⟩ ⟨1, 0, 0, 0⟩ [] (cl "20240305100000")
    (by decide) rfl rfl rfl).1

/-- C5 counterexample: a map-backfill rename failure is an uncaught
exception.  The run over two files aborts on the first (whose pixels were
already overwritten by the map watermark) and the second file is never
processed — the pipeline does not continue to the next file. -/
theorem c5_backfill_abort_counterexample :
    runFiles ⟨false, false, true, true, true, '_'⟩
      [⟨cl "20240101120000_0001_Graz_AT.jpg", true, none, false, none, true,
          false, true⟩,
       ⟨cl "IMG_0001.jpg", true, some (cl "20240305100000"), false, none, false,
          true, true⟩]
      ⟨2, 0, 0, 0⟩ =
      .error (⟨2, 0, 0, 0⟩,
        [.watermark (cl "20240101120000_0001_Graz_AT.jpg")]) := by
  rfl

end GPSRenamer

namespace GPSRenamer

/-- C6: with dry-run off, one iteration of the per-file loop advances the
sequence counter exactly when its outcome is a successful fresh rename; a
skip, a failed rename, the whole map-backfill branch and a file whose
timestamp cannot be obtained leave the counter unchanged, and the no-date
file is left completely untouched. -/
theorem c6_counter_invariant (fl : Flags) (ctx : FileCtx) (st : RunState)
    {a : Action} {st' : RunState} {effs : List FsEffect}
    (hdry : fl.dryRun = false)
    (h : step fl ctx st = .ok (a, st', effs)) :
    (st'.counter = st.counter + 1 ↔ a = .renamed) ∧
    (a ≠ .renamed → st'.counter = st.counter) ∧
    (a = .noDate → st' = st ∧ effs = []) := by
  simp only [step, hdry, Bool.false_eq_true, if_false] at h
  repeat' split at h
  all_goals try exact Except.noConfusion h
  all_goals
    (injection h with h1
     injection h1 with ha h2
     injection h2 with hst heff
     subst ha
     subst hst
     subst heff)
  all_goals refine ⟨?_, ?_, ?_⟩ <;> simp

/-- Closed instance of the C6 counter invariant at a successful fresh
rename. -/
theorem c6_counter_invariant_witness :
    ((RunState.mk 2 1 0 0).counter = (RunState.mk 1 0 0 0).counter + 1 ↔
      Action.renamed = Action.renamed) ∧
    (Action.renamed ≠ Action.renamed →
      (RunState.mk 2 1 0 0).counter = (RunState.mk 1 0 0 0).counter) ∧
    (Action.renamed = Action.noDate →
      RunState.mk 2 1 0 0 = RunState.mk 1 0 0 0 ∧
      ([FsEffect.rename (cl "IMG_0001.jpg") (cl "20240305100000_0001.jpg")] :
        List FsEffect) = []) :=
  c6_counter_invariant ⟨false, false, false, false, true, '_'⟩
    ⟨cl "IMG_0001.jpg", true, some (cl "20240305100000"), false, none, false,
      true, true⟩ ⟨1, 0, 0, 0⟩ rfl (by rfl)

/-- C8: in dry-run mode every per-file decision is still taken and the
counters still advance notionally, but no iteration issues a filesystem
effect or watermark, none throws, and the whole run — the macOS artifact
cleanup included — produces no effect at all. -/
theorem c8_dry_run (fl : Flags) (hdry : fl.dryRun = true) :
    (∀ ctx st, ∃ a st', step fl ctx st = .ok (a, st', []) ∧
      (a = .renamedDry → st'.counter = st.counter + 1 ∧
        st'.renamedCount = st.renamedCount + 1) ∧
      (a = .backfillDry → st'.mapAddedCount = st.mapAddedCount + 1) ∧
      (a = .skippedProcessed → st'.skippedCount = st.skippedCount + 1)) ∧
    ∀ allNames photos, ∃ st',
      process_directory fl allNames photos = .ok (st', []) := by
  have hstepAll : ∀ ctx st, ∃ a st', step fl ctx st = .ok (a, st', []) ∧
      (a = .renamedDry → st'.counter = st.counter + 1 ∧
        st'.renamedCount = st.renamedCount + 1) ∧
      (a = .backfillDry → st'.mapAddedCount = st.mapAddedCount + 1) ∧
      (a = .skippedProcessed → st'.skippedCount = st.skippedCount + 1) := by
    intro ctx st
    by_cases hb : (is_already_processed ctx.name && fl.reprocessMap && fl.addMap &&
        !has_map_tag ctx.name) = true
    · by_cases hg : (ctx.exif && ctx.gps || !(ctx.exif && ctx.gps) &&
          (locSearch ctx.name).isSome && ctx.fwdGeo) = true
      · refine ⟨.backfillDry, { st with mapAddedCount := st.mapAddedCount + 1 },
          ?_, by simp, by simp, by simp⟩
        simp only [step, hb, hg, hdry, Bool.not_true, Bool.false_eq_true,
          eq_self_iff_true, if_true, if_false]
      · simp only [Bool.not_eq_true] at hg
        refine ⟨.backfillNoGps, { st with skippedCount := st.skippedCount + 1 },
          ?_, by simp, by simp, by simp⟩
        simp only [step, hb, hg, hdry, Bool.not_false, Bool.false_eq_true,
          eq_self_iff_true, if_true, if_false]
    · simp only [Bool.not_eq_true] at hb
      by_cases hs : (fl.skipProcessed && is_already_processed ctx.name) = true
      · refine ⟨.skippedProcessed, { st with skippedCount := st.skippedCount + 1 },
          ?_, by simp, by simp, by simp⟩
        simp only [step, hb, hs, hdry, Bool.false_eq_true, eq_self_iff_true,
          if_true, if_false]
      · simp only [Bool.not_eq_true] at hs
        cases hdt : ctx.exifDt with
        | none =>
          refine ⟨.noDate, st, ?_, by simp, by simp, by simp⟩
          simp only [step, hb, hs, hdt, hdry, Bool.false_eq_true,
            eq_self_iff_true, if_true, if_false]
        | some dt =>
          refine ⟨.renamedDry,
            { st with renamedCount := st.renamedCount + 1, counter := st.counter + 1 },
            ?_, by simp, by simp, by simp⟩
          simp only [step, hb, hs, hdt, hdry, Bool.false_eq_true,
            eq_self_iff_true, if_true, if_false]
  refine ⟨hstepAll, ?_⟩
  have hrun : ∀ photos st, ∃ stF, runFiles fl photos st = .ok (stF, []) := by
    intro photos
    induction photos with
    | nil => exact fun st => ⟨st, rfl⟩
    | cons c cs ih =>
      intro st
      obtain ⟨a, st', hstep, -⟩ := hstepAll c st
      obtain ⟨stF, hF⟩ := ih st'
      refine ⟨stF, ?_⟩
      simp [runFiles, hstep, hF]
  intro allNames photos
  by_cases hph : photos.isEmpty = true
  · exact ⟨⟨get_start_counter allNames, 0, 0, 0⟩, by simp [process_directory, hph]⟩
  · simp only [Bool.not_eq_true] at hph
    obtain ⟨stF, hF⟩ := hrun photos ⟨get_start_counter allNames, 0, 0, 0⟩
    refine ⟨stF, ?_⟩
    simp [process_directory, hph, hF, hdry]

/-- Closed instance of the C8 dry-run law on a one-file directory. -/
theorem c8_dry_run_witness :
    ∃ st', process_directory ⟨true, false, false, false, true, '_'⟩
      [cl "IMG_0001.jpg"]
      [⟨cl "IMG_0001.jpg", true, some (cl "20240305100000"), false, none, false,
        true, true⟩] = .ok (st', []) :=
  (c8_dry_run ⟨true, false, false, false, true, '_'⟩ rfl).2
    [cl "IMG_0001.jpg"]
    [⟨cl "IMG_0001.jpg", true, some (cl "20240305100000"), false, none, false,
      true, true⟩]

end GPSRenamer

namespace GPSRenamer

/-- C7: with geocoding enabled `geocode_location` never returns absence, and
on a cache miss where the primary, keyed and fallback providers all fail it
returns the deterministic pseudo-location built from the coordinates — the
stringified latitude as city (and display city) and the stringified longitude
as country code. -/
theorem c7_total_failure_pseudo (hasKey : Bool) (lat4 lon4 lat5 lon5 : List Char)
    (cache : List (List Char × Loc))
    (hmiss : cacheGet cache (lat4 ++ ',' :: lon4) = none) :
    geocode_location true hasKey none none none lat4 lon4 lat5 lon5 cache =
      (some ⟨lat5, lat5, lon5⟩, cache) ∧
    ∀ nom liq bdc : Option Loc,
      ((geocode_location true hasKey nom liq bdc lat4 lon4 lat5 lon5 cache).1).isSome =
        true := by
  constructor
  · simp [geocode_location, hmiss]
  · intro nom liq bdc
    cases hc : cacheGet cache (lat4 ++ ',' :: lon4) with
    | some v => simp [geocode_location, hc]
    | none =>
      cases nom with
      | some r => simp [geocode_location, hc]
      | none =>
        cases hk : (if hasKey then liq else none) with
        | some r => simp [geocode_location, hc, hk]
        | none =>
          cases bdc with
          | some r => simp [geocode_location, hc, hk]
          | none => simp [geocode_location, hc, hk]

/-- Closed instance of the C7 pseudo-location fallback. -/
theorem c7_total_failure_pseudo_witness :
    geocode_location true false none none none (cl "47.0707") (cl "15.4395")
      (cl "47.07070") (cl "15.43950") [] =
      (some ⟨cl "47.07070", cl "47.07070", cl "15.43950"⟩, []) :=
  (c7_total_failure_pseudo false (cl "47.0707") (cl "15.4395") (cl "47.07070")
    (cl "15.43950") [] rfl).1

/-- C10: the reverse-geocode cache is written only on provider success — when
every provider fails, whatever the cache held, the cache comes back unchanged
— so a later call with the same coordinates runs the provider chain again:
a then-succeeding primary provider is consulted and its result cached. -/
theorem c10_cache_unchanged_on_failure (hasKey : Bool)
    (lat4 lon4 lat5 lon5 : List Char) (cache : List (List Char × Loc)) (l : Loc)
    (hmiss : cacheGet cache (lat4 ++ ',' :: lon4) = none) :
    (∀ useGeo : Bool,
      (geocode_location useGeo hasKey none none none lat4 lon4 lat5 lon5 cache).2 =
        cache) ∧
    geocode_location true hasKey (some l) none none lat4 lon4 lat5 lon5 cache =
      (some l, (lat4 ++ ',' :: lon4, l) :: cache) := by
  constructor
  · intro useGeo
    cases useGeo with
    | false => rfl
    | true =>
      cases hc : cacheGet cache (lat4 ++ ',' :: lon4) with
      | some v => simp [geocode_location, hc]
      | none => simp [geocode_location, hc]
  · simp [geocode_location, hmiss]

/-- Closed instance of the C10 retry behavior. -/
theorem c10_cache_unchanged_on_failure_witness :
    geocode_location true false (some ⟨cl "Graz", cl "Graz", cl "AT"⟩) none none
      (cl "47.0707") (cl "15.4395") (cl "47.07070") (cl "15.43950") [] =
      (some ⟨cl "Graz", cl "Graz", cl "AT"⟩,
        [(cl "47.0707" ++ ',' :: cl "15.4395", ⟨cl "Graz", cl "Graz", cl "AT"⟩)]) :=
  (c10_cache_unchanged_on_failure false (cl "47.0707") (cl "15.4395")
    (cl "47.07070") (cl "15.43950") [] ⟨cl "Graz", cl "Graz", cl "AT"⟩ rfl).2

end GPSRenamer

namespace GPSRenamer

/-! Properties of the code-point lexicographic order used by `sorted`. -/

lemma lexLe_cons_iff {x y : Char} {xs ys : List Char} :
    lexLe (x :: xs) (y :: ys) = true ↔ x < y ∨ (x = y ∧ lexLe xs ys = true) := by
  show (if x < y then true else if y < x then false else lexLe xs ys) = true ↔ _
  by_cases h1 : x < y
  · rw [if_pos h1]
    simp [h1]
  · rw [if_neg h1]
    by_cases h2 : y < x
    · rw [if_pos h2]
      have hne : x ≠ y := fun he => absurd (he ▸ h2) (lt_irrefl x)
      simp [h1, hne]
    · rw [if_neg h2]
      have he : x = y := le_antisymm (not_lt.mp h2) (not_lt.mp h1)
      constructor
      · exact fun h => Or.inr ⟨he, h⟩
      · rintro (h | ⟨-, h⟩)
        · exact absurd h h1
        · exact h

lemma lexLe_total (a b : List Char) : lexLe a b = true ∨ lexLe b a = true := by
  induction a generalizing b with
  | nil => exact Or.inl rfl
  | cons x xs ih =>
    rcases b with _ | ⟨y, ys⟩
    · exact Or.inr rfl
    · rcases lt_trichotomy x y with h | h | h
      · exact Or.inl (lexLe_cons_iff.mpr (Or.inl h))
      · rcases ih ys with h2 | h2
        · exact Or.inl (lexLe_cons_iff.mpr (Or.inr ⟨h, h2⟩))
        · exact Or.inr (lexLe_cons_iff.mpr (Or.inr ⟨h.symm, h2⟩))
      · exact Or.inr (lexLe_cons_iff.mpr (Or.inl h))

lemma lexLe_trans {a b c : List Char} (h1 : lexLe a b = true)
    (h2 : lexLe b c = true) : lexLe a c = true := by
  induction a generalizing b c with
  | nil => rfl
  | cons x xs ih =>
    rcases b with _ | ⟨y, ys⟩
    · exact absurd h1 (by simp [lexLe])
    · rcases c with _ | ⟨z, zs⟩
      · exact absurd h2 (by simp [lexLe])
      · rcases lexLe_cons_iff.mp h1 with hxy | ⟨hxy, hr1⟩ <;>
          rcases lexLe_cons_iff.mp h2 with hyz | ⟨hyz, hr2⟩
        · exact lexLe_cons_iff.mpr (Or.inl (lt_trans hxy hyz))
        · exact lexLe_cons_iff.mpr (Or.inl (by rw [← hyz]; exact hxy))
        · exact lexLe_cons_iff.mpr (Or.inl (by rw [hxy]; exact hyz))
        · exact lexLe_cons_iff.mpr (Or.inr ⟨hxy.trans hyz, ih hr1 hr2⟩)

lemma lexLe_antisymm {a b : List Char} (h1 : lexLe a b = true)
    (h2 : lexLe b a = true) : a = b := by
  induction a generalizing b with
  | nil =>
    rcases b with _ | ⟨y, ys⟩
    · rfl
    · exact absurd h2 (by simp [lexLe])
  | cons x xs ih =>
    rcases b with _ | ⟨y, ys⟩
    · exact absurd h1 (by simp [lexLe])
    · rcases lexLe_cons_iff.mp h1 with hxy | ⟨hxy, hr1⟩ <;>
        rcases lexLe_cons_iff.mp h2 with hyx | ⟨hyx, hr2⟩
      · exact absurd hyx (lt_asymm hxy)
      · exact absurd (by rw [hyx] at hxy; exact hxy) (lt_irrefl x)
      · exact absurd (by rw [hxy] at hyx; exact hyx) (lt_irrefl y)
      · rw [hxy, ih hr1 hr2]

/-! The insertion that realizes `sorted(set(...))`. -/

lemma mem_insSorted {x a : List Char} {l : List (List Char)} :
    a ∈ insSorted x l ↔ a = x ∨ a ∈ l := by
  induction l with
  | nil => simp [insSorted]
  | cons y ys ih =>
    unfold insSorted
    by_cases h1 : x = y
    · rw [if_pos h1, h1]
      simp [List.mem_cons]
    · rw [if_neg h1]
      by_cases h2 : lexLe x y = true
      · rw [if_pos h2]
        simp [List.mem_cons]
      · rw [if_neg h2]
        simp [List.mem_cons, ih]
        tauto

lemma insSorted_invariant {x : List Char} {l : List (List Char)}
    (hs : l.Pairwise fun a b => lexLe a b = true) (hn : l.Nodup) :
    ((insSorted x l).Pairwise fun a b => lexLe a b = true) ∧
      (insSorted x l).Nodup := by
  induction l with
  | nil => simp [insSorted]
  | cons y ys ih =>
    rw [List.pairwise_cons] at hs
    rw [List.nodup_cons] at hn
    obtain ⟨hy, hs'⟩ := hs
    obtain ⟨hyn, hn'⟩ := hn
    unfold insSorted
    by_cases h1 : x = y
    · rw [if_pos h1]
      exact ⟨List.pairwise_cons.mpr ⟨hy, hs'⟩, List.nodup_cons.mpr ⟨hyn, hn'⟩⟩
    · rw [if_neg h1]
      by_cases h2 : lexLe x y = true
      · rw [if_pos h2]
        refine ⟨List.pairwise_cons.mpr ⟨?_, List.pairwise_cons.mpr ⟨hy, hs'⟩⟩,
          List.nodup_cons.mpr ⟨?_, List.nodup_cons.mpr ⟨hyn, hn'⟩⟩⟩
        · intro b hb
          rcases List.mem_cons.mp hb with hb | hb
          · rw [hb]
            exact h2
          · exact lexLe_trans h2 (hy b hb)
        · intro hmem
          rcases List.mem_cons.mp hmem with hb | hb
          · exact h1 hb
          · exact h1 (lexLe_antisymm h2 (hy x hb))
      · rw [if_neg h2]
        have h3 : lexLe y x = true := by
          rcases lexLe_total x y with h | h
          · exact absurd h h2
          · exact h
        obtain ⟨ihs, ihn⟩ := ih hs' hn'
        refine ⟨List.pairwise_cons.mpr ⟨?_, ihs⟩, List.nodup_cons.mpr ⟨?_, ihn⟩⟩
        · intro b hb
          rcases mem_insSorted.mp hb with hb | hb
          · rw [hb]
            exact h3
          · exact hy b hb
        · intro hmem
          rcases mem_insSorted.mp hmem with hb | hb
          · exact h1 hb.symm
          · exact hyn hb

lemma sortedDedup_invariant (l : List (List Char)) :
    ((sortedDedup l).Pairwise fun a b => lexLe a b = true) ∧
      (sortedDedup l).Nodup := by
  induction l with
  | nil => simp [sortedDedup]
  | cons x xs ih =>
    show ((insSorted x (sortedDedup xs)).Pairwise _) ∧ _
    exact insSorted_invariant ih.1 ih.2

lemma mem_sortedDedup {a : List Char} {l : List (List Char)} :
    a ∈ sortedDedup l ↔ a ∈ l := by
  induction l with
  | nil => simp [sortedDedup]
  | cons x xs ih =>
    show a ∈ insSorted x (sortedDedup xs) ↔ _
    rw [mem_insSorted, ih]
    simp [List.mem_cons]

lemma mem_extFold {names exts : List (List Char)} {x : List Char} :
    x ∈ exts.foldr (fun e acc =>
      (names.filter fun n => endsWithB n e && keepFile n) ++
      (names.filter fun n => endsWithB n (upperStr e) && keepFile n) ++ acc) [] ↔
    x ∈ names ∧ keepFile x = true ∧
      ∃ e ∈ exts, endsWithB x e = true ∨ endsWithB x (upperStr e) = true := by
  induction exts with
  | nil => simp
  | cons e es ih =>
    simp only [List.foldr_cons, List.mem_append, List.mem_filter,
      Bool.and_eq_true, ih, List.mem_cons]
    constructor
    · rintro ((⟨h1, h2, h3⟩ | ⟨h1, h2, h3⟩) | ⟨h1, h3, e', he', h4⟩)
      · exact ⟨h1, h3, e, Or.inl rfl, Or.inl h2⟩
      · exact ⟨h1, h3, e, Or.inl rfl, Or.inr h2⟩
      · exact ⟨h1, h3, e', Or.inr he', h4⟩
    · rintro ⟨h1, h2, e', he' | he', h4⟩
      · rcases h4 with h4 | h4
        · exact Or.inl (Or.inl ⟨h1, by rw [← he']; exact h4, h2⟩)
        · exact Or.inl (Or.inr ⟨h1, by rw [← he']; exact h4, h2⟩)
      · exact Or.inr ⟨h1, h2, e', he', h4⟩

/-- C9 (amended): the collector returns exactly the files of the directory
whose name bears one of the photo extensions in its lowercase or its
full-uppercase form (not an arbitrary case mix — see counterexample), minus
the `._*` resource forks and `.DS_Store`, as a duplicate-free list sorted by
code point. -/
theorem c9_scanner (names : List (List Char)) :
    (∀ x, x ∈ collect_photo_files names ↔ x ∈ names ∧ keepFile x = true ∧
      ∃ e ∈ PHOTO_EXTENSIONS,
        endsWithB x e = true ∨ endsWithB x (upperStr e) = true) ∧
    ((collect_photo_files names).Pairwise fun a b => lexLe a b = true) ∧
    (collect_photo_files names).Nodup := by
  refine ⟨?_, (sortedDedup_invariant _).1, (sortedDedup_invariant _).2⟩
  intro x
  unfold collect_photo_files
  rw [mem_sortedDedup, mem_extFold]

/-- C9 counterexample: a mixed-case extension satisfies the claim's
case-insensitive predicate but is not collected — the collector globs only
the lowercase and the full-uppercase variant of each extension. -/
theorem c9_counterexample :
    claimPhotoCI (cl "photo.Jpg") = true ∧
    collect_photo_files [cl "photo.Jpg"] = [] := by
  exact ⟨by decide, by rfl⟩

end GPSRenamer
